import Mathlib

/-!
Shallow embedding of the `mapenv` Go package (files `decode.go`, the
`DecodeError` file, and `README.md`): a decoder that maps process
environment variables onto the fields of a struct reached through a
pointer, converting each string value to the field's type.

Modelling conventions:
* Go machine integers are `Int`/`Nat`; `reflect.Value.SetInt/SetUint`
  truncate to the destination width, modelled by explicit wrapping
  modulo `2 ^ bits` (two's complement for signed widths).
* `float64` values produced by `strconv.ParseFloat` are modelled as exact
  decimal values (mantissa and base-10 exponent); the claims under study
  only evaluate this path on integer-valued strings, where the IEEE
  double is exact.
* `time.Time` is modelled as nanoseconds since the Unix epoch (`Int`);
  `time.Parse` with the `RFC3339Nano` layout is modelled by a parser for
  the strict RFC 3339 grammar that Go uses for this layout.
* Fallible Go functions return `Except`; `reflect` panics are a distinct
  `Outcome.panic` constructor.
* `encoding/json.Unmarshal` into targets other than `*time.Time` is kept
  abstract: the development is parameterised by an arbitrary oracle
  `ju : String → Ty → Val → Except String Val`, since no property under
  study depends on generic JSON decoding.
-/

namespace Mapenv

/-- Widths of Go's signed integer kinds (`int` is 64-bit on the platforms
the package targets). -/
inductive IntKind where
  | iPlat | i8 | i16 | i32 | i64
  deriving DecidableEq, Repr

/-- Widths of Go's unsigned integer kinds (`uint` and `uintptr` are
64-bit). -/
inductive UintKind where
  | uPlat | u8 | u16 | u32 | u64 | uPtrSize
  deriving DecidableEq, Repr

def IntKind.bits : IntKind → Nat
  | .iPlat => 64 | .i8 => 8 | .i16 => 16 | .i32 => 32 | .i64 => 64

def UintKind.bits : UintKind → Nat
  | .uPlat => 64 | .u8 => 8 | .u16 => 16 | .u32 => 32 | .u64 => 64
  | .uPtrSize => 64

/-- The reflective type of a field target, covering every `reflect.Kind`
branch that `decodeValue` distinguishes.  `ttime` is the struct kind with
concrete type `time.Time`; `tmap`/`tarray`/`tslice`/`tstructJson` are the
remaining composite kinds (decoded via generic JSON unmarshalling);
`tiface` and `tUnsafePtr` are kinds outside the recognised set. -/
inductive Ty where
  | tstr
  | tbool
  | tint (k : IntKind)
  | tuint (k : UintKind)
  | tfloat32
  | tfloat64
  | tcomplex64
  | tcomplex128
  | ttime
  | tmap
  | tarray
  | tslice
  | tstructJson
  | tptr (elem : Ty)
  | tchan
  | tfunc
  | tiface
  | tUnsafePtr
  deriving DecidableEq, Repr

/-- Model of `reflect.Kind.String()` for the kinds of `Ty` (the name used when a
field's type is reported, e.g. in the unsupported-kind error). -/
def Ty.kindName : Ty → String
  | .tstr => "string"
  | .tbool => "bool"
  | .tint .iPlat => "int"
  | .tint .i8 => "int8"
  | .tint .i16 => "int16"
  | .tint .i32 => "int32"
  | .tint .i64 => "int64"
  | .tuint .uPlat => "uint"
  | .tuint .u8 => "uint8"
  | .tuint .u16 => "uint16"
  | .tuint .u32 => "uint32"
  | .tuint .u64 => "uint64"
  | .tuint .uPtrSize => "uintptr"
  | .tfloat32 => "float32"
  | .tfloat64 => "float64"
  | .tcomplex64 => "complex64"
  | .tcomplex128 => "complex128"
  | .ttime => "struct"
  | .tmap => "map"
  | .tarray => "array"
  | .tslice => "slice"
  | .tstructJson => "struct"
  | .tptr _ => "ptr"
  | .tchan => "chan"
  | .tfunc => "func"
  | .tiface => "interface"
  | .tUnsafePtr => "unsafe.Pointer"

/-- Go nanoseconds-since-Unix-epoch instant (the observable content of a
`time.Time` for this package). -/
abbrev GoTime := Int

/-- The zero `time.Time` (0001-01-01T00:00:00 UTC) as epoch nanoseconds. -/
def goTimeZero : GoTime := -62135596800000000000

/-- An exact decimal value `mant * 10 ^ exp10`, the model of a parsed
floating-point literal (exact where the IEEE double is; Go's binary
rounding is not modelled, and no property under study depends on it). -/
structure DecValue where
  mant : Int
  exp10 : Int
  deriving DecidableEq, Repr

/-- Runtime values of the modelled Go types.  Pointer values carry their
pointee as a tree (`none` is a nil pointer); `vother` stands for the
payload of kinds whose contents the decoder never inspects (chan, func,
interface, unsafe pointers) as well as opaque JSON-decoded composites. -/
inductive Val where
  | vstr (s : String)
  | vbool (b : Bool)
  | vint (i : Int)
  | vuint (n : Nat)
  | vfloat (v : DecValue)
  | vcomplex (re im : DecValue)
  | vtime (t : GoTime)
  | vptr (p : Option Val)
  | vstruct (fields : List Val)
  | vother (id : Nat)
  deriving Repr

/-- The zero (default) Go value of each modelled type. -/
def zeroVal : Ty → Val
  | .tstr => .vstr ""
  | .tbool => .vbool false
  | .tint _ => .vint 0
  | .tuint _ => .vuint 0
  | .tfloat32 => .vfloat ⟨0, 0⟩
  | .tfloat64 => .vfloat ⟨0, 0⟩
  | .tcomplex64 => .vcomplex ⟨0, 0⟩ ⟨0, 0⟩
  | .tcomplex128 => .vcomplex ⟨0, 0⟩ ⟨0, 0⟩
  | .ttime => .vtime goTimeZero
  | .tmap => .vother 0
  | .tarray => .vother 0
  | .tslice => .vother 0
  | .tstructJson => .vother 0
  | .tptr _ => .vptr none
  | .tchan => .vother 0
  | .tfunc => .vother 0
  | .tiface => .vother 0
  | .tUnsafePtr => .vother 0

/-- Two's-complement wrap of an integer into `bits` bits: the effect of
`reflect.Value.SetInt` on a narrower signed destination. -/
def wrapSigned (bits : Nat) (i : Int) : Int :=
  let r := i % ((2 : Int) ^ bits)
  if r < (2 : Int) ^ (bits - 1) then r else r - (2 : Int) ^ bits

/-- Wrap of a natural into `bits` bits: the effect of
`reflect.Value.SetUint` on a narrower unsigned destination. -/
def wrapUnsigned (bits : Nat) (n : Nat) : Nat := n % 2 ^ bits

/-- Errors produced by the value converter: `strconv` errors
(`*strconv.NumError` with `ErrRange` flagged by `isRange`), date/time
errors, JSON errors, and the unsupported-kind error of `decodeValue`. -/
inductive TimeErr where
  | parseErr (input : String)
  | unmarshalErr (input : String)
  deriving DecidableEq, Repr

inductive ConvErr where
  | numError (func : String) (num : String) (isRange : Bool)
  | timeErr (e : TimeErr)
  | jsonErr (msg : String)
  | unsupportedKind (kindName : String)
  deriving DecidableEq, Repr

/-! ### `strconv` models -/

/-- Numeric value of a list of decimal digit characters. -/
def digitsToNat (ds : List Char) : Nat :=
  ds.foldl (fun a c => a * 10 + (c.toNat - 48)) 0

def allDigits (ds : List Char) : Bool := ds.all (·.isDigit)

/-- Strip one optional leading sign; returns (isNegative, rest). -/
def splitSign : List Char → Bool × List Char
  | '+' :: cs => (false, cs)
  | '-' :: cs => (true, cs)
  | cs => (false, cs)

/-- Model of `strconv.ParseBool`: exactly the listed truthy/falsy spellings. -/
def parseBool (s : String) : Except ConvErr Bool :=
  if s = "1" ∨ s = "t" ∨ s = "T" ∨ s = "TRUE" ∨ s = "true" ∨ s = "True" then
    .ok true
  else if s = "0" ∨ s = "f" ∨ s = "F" ∨ s = "FALSE" ∨ s = "false" ∨ s = "False" then
    .ok false
  else
    .error (.numError "ParseBool" s false)

/-- Model of `strconv.ParseInt(s, 10, 64)`: optional sign, nonempty decimal
digits, range-checked against int64 (and only int64 — the call site
always passes bit size 64). -/
def parseInt64 (s : String) : Except ConvErr Int :=
  let (neg, ds) := splitSign s.toList
  if ds.isEmpty then .error (.numError "ParseInt" s false)
  else if ¬ allDigits ds then .error (.numError "ParseInt" s false)
  else
    let i : Int := if neg then -(digitsToNat ds : Int) else (digitsToNat ds : Int)
    if i < -(2 ^ 63) ∨ (2 : Int) ^ 63 ≤ i then .error (.numError "ParseInt" s true)
    else .ok i

/-- Model of `strconv.ParseUint(s, 10, 64)`: nonempty decimal digits, no sign,
range-checked against uint64. -/
def parseUint64 (s : String) : Except ConvErr Nat :=
  let ds := s.toList
  if ds.isEmpty then .error (.numError "ParseUint" s false)
  else if ¬ allDigits ds then .error (.numError "ParseUint" s false)
  else if 2 ^ 64 ≤ digitsToNat ds then .error (.numError "ParseUint" s true)
  else .ok (digitsToNat ds)

/-- Decimal-literal core of `strconv.ParseFloat(s, 64)`, with the value
kept exactly: optional sign, `D+ [. D*] | . D+`, optional decimal
exponent.  (The `Inf`/`NaN`/hexadecimal spellings accepted by Go are
outside this model; every input considered in the development is a plain
decimal.) -/
def splitDigits : List Char → List Char × List Char
  | [] => ([], [])
  | c :: cs =>
    if c.isDigit then
      let (ds, rest) := splitDigits cs
      (c :: ds, rest)
    else ([], c :: cs)

def parseFloat64 (s : String) : Except ConvErr DecValue :=
  let err : Except ConvErr DecValue := .error (.numError "ParseFloat" s false)
  let (neg, cs) := splitSign s.toList
  let (ipart, rest₁) := splitDigits cs
  let (fpart, rest₂) :=
    match rest₁ with
    | '.' :: cs' => splitDigits cs'
    | _ => ([], rest₁)
  let sawDot : Bool := match rest₁ with | '.' :: _ => true | _ => false
  if ipart.isEmpty ∧ fpart.isEmpty then err
  else
    let mant : Int := (digitsToNat ipart * 10 ^ fpart.length + digitsToNat fpart : Nat)
    let mant := if neg then -mant else mant
    let exp : Int := -(fpart.length : Int)
    let rest₃ := if sawDot then rest₂ else rest₁
    match rest₃ with
    | [] => .ok ⟨mant, exp⟩
    | e :: cs' =>
      if e = 'e' ∨ e = 'E' then
        let (eneg, ds) := splitSign cs'
        if ds.isEmpty ∨ ¬ allDigits ds then err
        else
          .ok ⟨mant, exp + (if eneg then -(digitsToNat ds : Int) else (digitsToNat ds : Int))⟩
      else err

/-- Simplified `strconv.ParseComplex(s, 128)`: accepts `re`, `imi`, and
`re±imi` with decimal components (the kernel of the Go grammar; no claim
under study depends on this branch). -/
def splitLastSign (cs : List Char) : Option (List Char × Char × List Char) :=
  match cs with
  | [] => none
  | c :: rest =>
    match splitLastSign rest with
    | some (pre, sgn, post) => some (c :: pre, sgn, post)
    | none =>
      if (c = '+' ∨ c = '-') ∧ ¬ rest.isEmpty then some ([], c, rest) else none

def parseComplex128 (s : String) : Except ConvErr (DecValue × DecValue) :=
  let err : Except ConvErr (DecValue × DecValue) := .error (.numError "ParseComplex" s false)
  let cs := s.toList
  if cs.getLast? = some 'i' then
    let body := cs.dropLast
    match splitLastSign body with
    | some (pre, sgn, post) =>
      match parseFloat64 (String.mk pre), parseFloat64 (String.mk post) with
      | .ok re, .ok im => .ok (re, if sgn = '-' then ⟨-im.mant, im.exp10⟩ else im)
      | _, _ => err
    | none =>
      match parseFloat64 (String.mk body) with
      | .ok im => .ok (⟨0, 0⟩, im)
      | .error _ => err
  else
    match parseFloat64 s with
    | .ok re => .ok (re, ⟨0, 0⟩)
    | .error _ => err

/-! ### `time` models -/

/-- Days from 1970-01-01 to `y-m-d` in the proleptic Gregorian calendar
(floored division throughout). -/
def daysFromCivil (y m d : Int) : Int :=
  let y' := if m ≤ 2 then y - 1 else y
  let era := Int.fdiv y' 400
  let yoe := y' - era * 400
  let mp := if m > 2 then m - 3 else m + 9
  let doy := Int.fdiv (153 * mp + 2) 5 + d - 1
  let doe := yoe * 365 + Int.fdiv yoe 4 - Int.fdiv yoe 100 + doy
  era * 146097 + doe - 719468

def isLeapYear (y : Int) : Bool :=
  y % 4 = 0 ∧ (y % 100 ≠ 0 ∨ y % 400 = 0)

/-- Number of days in month `m` of year `y`. -/
def daysInMonth (y m : Int) : Int :=
  if m = 2 then (if isLeapYear y then 29 else 28)
  else if m = 4 ∨ m = 6 ∨ m = 9 ∨ m = 11 then 30
  else 31

/-- Read exactly `n` decimal digit characters; returns them and the rest. -/
def takeDigitChars : Nat → List Char → Option (List Char × List Char)
  | 0, cs => some ([], cs)
  | n + 1, c :: cs =>
    if c.isDigit then
      (takeDigitChars n cs).map (fun (ds, r) => (c :: ds, r))
    else none
  | _ + 1, [] => none

/-- Read exactly `n` decimal digits; returns the value and the rest. -/
def takeDigits (n : Nat) (cs : List Char) : Option (Nat × List Char) :=
  (takeDigitChars n cs).map (fun (ds, r) => (digitsToNat ds, r))

/-- Fractional seconds after the dot: one or more digits, of which the
first nine (zero-padded on the right) give the nanosecond count. -/
def parseFracNanos (cs : List Char) : Option (Int × List Char) :=
  let (ds, rest) := splitDigits cs
  if ds.isEmpty then none
  else
    let nine := ds.take 9
    some (((digitsToNat nine * 10 ^ (9 - nine.length) : Nat) : Int), rest)

/-- Timezone suffix: `Z` or `±hh:mm`; returns the offset east of UTC in
seconds. -/
def parseTzOffset : List Char → Option (Int × List Char)
  | 'Z' :: rest => some (0, rest)
  | c :: rest =>
    if c = '+' ∨ c = '-' then
      match takeDigits 2 rest with
      | some (hh, ':' :: rest') =>
        match takeDigits 2 rest' with
        | some (mm, rest'') =>
          if hh ≤ 23 ∧ mm ≤ 59 then
            let off : Int := (hh : Int) * 3600 + (mm : Int) * 60
            some (if c = '-' then -off else off, rest'')
          else none
        | none => none
      | _ => none
    else none
  | [] => none

/-- Model of `time.Parse(time.RFC3339Nano, s)`: Go parses the RFC3339 layouts with
a strict RFC 3339 grammar — `yyyy-mm-ddThh:mm:ss[.frac](Z|±hh:mm)` with
range-checked components.  Returns the instant as epoch nanoseconds. -/
def parseRFC3339Nano (s : String) : Option GoTime :=
  match takeDigits 4 s.toList with
  | some (y, '-' :: r₁) =>
    match takeDigits 2 r₁ with
    | some (mo, '-' :: r₂) =>
      match takeDigits 2 r₂ with
      | some (d, 'T' :: r₃) =>
        match takeDigits 2 r₃ with
        | some (h, ':' :: r₄) =>
          match takeDigits 2 r₄ with
          | some (mi, ':' :: r₅) =>
            match takeDigits 2 r₅ with
            | some (sec, r₆) =>
              let fracAndTz : Option (Int × List Char) :=
                match r₆ with
                | '.' :: r₇ => parseFracNanos r₇
                | _ => some (0, r₆)
              match fracAndTz with
              | some (ns, r₈) =>
                match parseTzOffset r₈ with
                | some (off, []) =>
                  if 1 ≤ mo ∧ mo ≤ 12 ∧ 1 ≤ d ∧ (d : Int) ≤ daysInMonth y mo ∧
                      h ≤ 23 ∧ mi ≤ 59 ∧ sec ≤ 59 then
                    let epochSec : Int :=
                      daysFromCivil y mo d * 86400 + (h : Int) * 3600 +
                        (mi : Int) * 60 + (sec : Int) - off
                    some (epochSec * 1000000000 + ns)
                  else none
                | _ => none
              | none => none
            | none => none
          | _ => none
        | _ => none
      | _ => none
    | _ => none
  | _ => none

/-- Wrapper of `parseRFC3339Nano` as the package calls `time.Parse`: the parse
error carries the input (the model does not reproduce Go's message
text). -/
def timeParse (s : String) : Except TimeErr GoTime :=
  match parseRFC3339Nano s with
  | some t => .ok t
  | none => .error (.parseErr s)

/-- Model of `time.Unix(int64(sec), int64(dec*1e9))` for `sec, dec := math.Modf(f)`:
integer part (truncated toward zero) as seconds, fractional part scaled by
1e9 and truncated (`Int.tdiv` truncates toward zero) as nanoseconds. -/
def unixFromFloat (f : DecValue) : GoTime :=
  if 0 ≤ f.exp10 then
    f.mant * 10 ^ f.exp10.toNat * 1000000000
  else
    let d : Int := 10 ^ (-f.exp10).toNat
    let sec := f.mant.tdiv d
    let rem := f.mant.tmod d
    sec * 1000000000 + (rem * 1000000000).tdiv d

/-- Model of `json.Unmarshal([]byte(s), &t)` for `t` a `time.Time`: JSON `null`
leaves `t` unchanged and succeeds; otherwise the data must be a quoted
RFC 3339 string. -/
def jsonUnmarshalTime (s : String) (t : GoTime) : Except TimeErr GoTime :=
  if s = "null" then .ok t
  else
    match s.toList with
    | '"' :: rest =>
      if rest.getLast? = some '"' then
        match parseRFC3339Nano (String.mk rest.dropLast) with
        | some t' => .ok t'
        | none => .error (.unmarshalErr s)
      else .error (.unmarshalErr s)
    | _ => .error (.unmarshalErr s)

/-- The function `parseTime` from `decode.go`: RFC3339Nano, then float Unix seconds,
then JSON unmarshalling.  The errors of the second and third attempts are
declared in the scope of their `if` statements, so the `err` returned
when all three fail is the one from the *first* attempt. -/
def parseTime (s : String) : Except TimeErr GoTime :=
  match timeParse s with
  | .ok t => .ok t
  | .error e =>
    match parseFloat64 s with
    | .ok f => .ok (unixFromFloat f)
    | .error _ =>
      -- the json attempt writes into `t`, which the failed first attempt
      -- left at the zero time
      match jsonUnmarshalTime s goTimeZero with
      | .ok t => .ok t
      | .error _ => .error e

/-! ### Struct-field metadata and tag resolution -/

/-- A struct field as seen through `reflect.StructField`: declared name,
the raw `mpe` and `json` tag texts (`""` when the tag is absent, matching
`StructTag.Get`), exportedness (`PkgPath == ""`), and the field type. -/
structure Field where
  name : String
  tagMpe : String
  tagJson : String
  exported : Bool
  ty : Ty
  deriving Repr

/-- Model of `strings.Split(s, ",")`: split at every comma, keeping empty pieces. -/
def splitCommaAux : List Char → List Char → List String
  | acc, [] => [String.mk acc.reverse]
  | acc, c :: cs =>
    if c = ',' then String.mk acc.reverse :: splitCommaAux [] cs
    else splitCommaAux (c :: acc) cs

def splitComma (s : String) : List String := splitCommaAux [] s.toList

/-- The keys contributed by the `mpe` tag (lines 167–173 of `decode.go`):
comma-split with empty entries dropped, nothing when the tag is absent. -/
def mpeKeys (f : Field) : List String :=
  if f.tagMpe.length > 0 then
    (splitComma f.tagMpe).filter (fun p => p.length > 0)
  else []

/-- The key contributed by the `json` tag (lines 180–185): its first
comma-delimited segment, when non-empty. -/
def jsonKeys (f : Field) : List String :=
  if f.tagJson.length > 0 then
    match splitComma f.tagJson with
    | t₀ :: _ => if t₀.length > 0 then [t₀] else []
    | [] => []
  else []

/-- The function `getFieldTags` from `decode.go`: the non-empty comma-separated `mpe`
keys if any; otherwise the first segment of the `json` tag if non-empty;
otherwise the field's declared name. -/
def getFieldTags (f : Field) : List String :=
  let res := mpeKeys f
  -- ignore json tags and field name if mpe tag is present
  if res.length > 0 then res
  else
    let res := jsonKeys f
    -- ignore field name if json tag is present
    if res.length > 0 then res else [f.name]

/-! ### The decoder -/

/-- The process environment: an association list of variable bindings;
`os.LookupEnv` returns the first binding of a key. -/
abbrev Env := List (String × String)

def lookupEnv (env : Env) (k : String) : Option String :=
  (env.find? (fun p => p.1 == k)).map (·.2)

/-- The candidate-key probe of `Decode` (the `for _, tag = range fieldTags`
loop): returns the pair `(s, tag)` those variables hold after the loop —
the first existing variable's value and its key, or `("", lastKey)` when
no candidate exists in the environment. -/
def probeTags (env : Env) : List String → String × String
  | [] => ("", "")
  | t :: rest =>
    match lookupEnv env t with
    | some v => (v, t)
    | none =>
      match rest with
      | [] => ("", t)
      | _ :: _ => probeTags env rest

/-- Oracle for `encoding/json.Unmarshal` into composite targets other
than `*time.Time` (string data, target type, current target value).  The
development is parameterised over it: no property under study depends on
generic JSON decoding. -/
abbrev JsonOracle := String → Ty → Val → Except String Val

/-- The function `decodeValue` from `decode.go`.  The Go function receives a pointer
`v` to the target; here the pointer's target is `tgt : Option Val` (with
`none` a nil pointer, whose `Elem()` is the invalid `reflect.Value`) and
`t` is the target's static type.  Returns the updated target. -/
def decodeValue (ju : JsonOracle) (s : String) : Ty → Option Val → Except ConvErr (Option Val)
  -- `v.Elem()` of a nil pointer is the zero Value: kind `invalid`, which
  -- falls through to the default (unsupported-kind) branch
  | _, none => .error (.unsupportedKind "invalid")
  | .tstr, some _ => .ok (some (.vstr s))
  | .tbool, some _ => (parseBool s).map (fun b => some (.vbool b))
  | .tint k, some _ =>
    (parseInt64 s).map (fun i => some (.vint (wrapSigned k.bits i)))
  | .tuint k, some _ =>
    (parseUint64 s).map (fun n => some (.vuint (wrapUnsigned k.bits n)))
  | .tfloat32, some _ => (parseFloat64 s).map (fun q => some (.vfloat q))
  | .tfloat64, some _ => (parseFloat64 s).map (fun q => some (.vfloat q))
  | .tcomplex64, some _ =>
    (parseComplex128 s).map (fun c => some (.vcomplex c.1 c.2))
  | .tcomplex128, some _ =>
    (parseComplex128 s).map (fun c => some (.vcomplex c.1 c.2))
  | .ttime, some _ =>
    match parseTime s with
    | .ok t => .ok (some (.vtime t))
    | .error e => .error (.timeErr e)
  | .tmap, some old =>
    match ju s .tmap old with
    | .ok w => .ok (some w)
    | .error m => .error (.jsonErr m)
  | .tarray, some old =>
    match ju s .tarray old with
    | .ok w => .ok (some w)
    | .error m => .error (.jsonErr m)
  | .tslice, some old =>
    match ju s .tslice old with
    | .ok w => .ok (some w)
    | .error m => .error (.jsonErr m)
  | .tstructJson, some old =>
    match ju s .tstructJson old with
    | .ok w => .ok (some w)
    | .error m => .error (.jsonErr m)
  | .tptr t', some w =>
    -- Go's `if v.IsNil()` tests the pointer *to* the field, which is
    -- never nil here (`some _`), so the allocation branch never runs;
    -- the call recurses on the pointer-typed field value itself
    match w with
    | .vptr p => (decodeValue ju s t' p).map (fun p' => some (.vptr p'))
    | _ => .error (.unsupportedKind "invalid")  -- ill-typed, unreachable
  | .tchan, some w => .ok (some w)
  | .tfunc, some w => .ok (some w)
  | .tiface, some _ => .error (.unsupportedKind Ty.tiface.kindName)
  | .tUnsafePtr, some _ => .error (.unsupportedKind Ty.tUnsafePtr.kindName)

/-- The `DecodeError` value type of the package. -/
structure DecodeError where
  description : String
  field : String
  err : Option ConvErr
  deriving DecidableEq, Repr

def newDecodeError (description field : String) (err : Option ConvErr) : DecodeError :=
  ⟨description, field, err⟩

/-- Conversion of one found value, with the error wrapping of the field
loop.  (Go's description quotes the key; the quote characters are elided
from the model's message text.) -/
def fieldConvert (ju : JsonOracle) (s tag : String) (ty : Ty) : Except DecodeError Val :=
  match decodeValue ju s ty (some (zeroVal ty)) with
  | .ok r => .ok (r.getD (zeroVal ty))
  | .error e =>
    .error (newDecodeError ("unable to decode value in field " ++ tag) tag (some e))

/-- The body of the field loop for an exported field, given its resolved
candidate key list: probe the environment, skip on empty value, convert
otherwise.  Within `Decode` every field starts from its zero value in
the freshly allocated record. -/
def fieldOutcome (ju : JsonOracle) (env : Env) (tags : List String) (ty : Ty) :
    Except DecodeError Val :=
  let (s, tag) := probeTags env tags
  if s.length = 0 then .ok (zeroVal ty)
  else fieldConvert ju s tag ty

/-- One iteration of the field loop: unexported fields are skipped and
stay at their zero value in the fresh record. -/
def decodeField (ju : JsonOracle) (env : Env) (f : Field) : Except DecodeError Val :=
  if f.exported then fieldOutcome ju env (getFieldTags f) f.ty
  else .ok (zeroVal f.ty)

/-- The whole field loop over the freshly allocated record: left-to-right,
aborting at the first failing field. -/
def decodeFields (ju : JsonOracle) (env : Env) : List Field → Except DecodeError (List Val)
  | [] => .ok []
  | f :: rest =>
    match decodeField ju env f with
    | .error e => .error e
    | .ok v => (decodeFields ju env rest).map (fun vs => v :: vs)

/-- The static type of a `Decode` argument: a chain of pointers ending in
either a struct record (with its field metadata) or a value of some other
kind. -/
inductive DTy where
  | base (t : Ty)
  | strukt (fields : List Field)
  | ptr (elem : DTy)
  deriving Repr

/-- Zero value of a destination type. -/
def zeroValD : DTy → Val
  | .base t => zeroVal t
  | .strukt fields => .vstruct (fields.map (fun f => zeroVal f.ty))
  | .ptr _ => .vptr none

/-- Number of pointer levels of a destination type. -/
def ptrDepth : DTy → Nat
  | .ptr t => ptrDepth t + 1
  | _ => 0

/-- The terminal (non-pointer) type of a destination type. -/
def stripPtr : DTy → DTy
  | .ptr t => stripPtr t
  | t => t

/-- Field metadata of the terminal record (empty for non-record
terminals). -/
def terminalFields (t : DTy) : List Field :=
  match stripPtr t with
  | .strukt fields => fields
  | _ => []

/-- The dereference loop of `Decode` (`for t.Kind() == reflect.Ptr`):
walks type and value together, allocating a fresh zero value whenever an
inner reference is nil.  At the outermost level the value handle is the
unaddressable `reflect.ValueOf(v)`, so a nil there makes `val.Set` panic
(`.error ()`).  Returns the terminal type, the terminal value reached,
and the number of pointer levels peeled. -/
def walk : DTy → Val → Bool → Except Unit (DTy × Val × Nat)
  | .ptr t', v, outermost =>
    match v with
    | .vptr none =>
      if outermost then .error ()
      else (walk t' (zeroValD t') false).map (fun (it, iv, n) => (it, iv, n + 1))
    | .vptr (some w) =>
      (walk t' w false).map (fun (it, iv, n) => (it, iv, n + 1))
    | _ => .error ()  -- ill-typed argument (pointer type, non-pointer value)
  | t, v, _ => .ok (t, v, 0)

/-- Re-attach `n` pointer levels around a terminal value: after the
dereference loop every peeled level is a set pointer. -/
def wrapN : Nat → Val → Val
  | 0, v => v
  | n + 1, v => .vptr (some (wrapN n v))

/-- Outcome of a `Decode` call: normal return (`ok`/`err e`) or a
`reflect` panic. -/
inductive Outcome where
  | ok
  | err (e : DecodeError)
  | panic (msg : String)
  deriving DecidableEq, Repr

/-- The function `Decode` from `decode.go`, as a function from the argument
`(static type, value)` and the environment to the outcome and the
caller-visible final value of the argument.  The fields are decoded into
a freshly allocated record (`newVal`), which is assigned through the
terminal handle only when every field has succeeded. -/
def Decode (ju : JsonOracle) (env : Env) (t : DTy) (v : Val) : Outcome × Val :=
  match t with
  | .ptr _ =>
    match walk t v true with
    | .error _ => (.panic "reflect: reflect.Value.Set using unaddressable value", v)
    | .ok (it, iv, n) =>
      match it with
      | .strukt fields =>
        match decodeFields ju env fields with
        | .error e => (.err e, wrapN n iv)
        | .ok fs => (.ok, wrapN n (.vstruct fs))
      | .base bt =>
        (.err (newDecodeError ("cannot decode into value of type: " ++ bt.kindName) "" none),
          wrapN n iv)
      | .ptr _ => (.panic "unreachable", v)  -- `walk` never returns a pointer terminal
  | _ => (.err (newDecodeError "must decode to pointer" "" none), v)

/-! ### Notions used to state the properties -/

/-- Whether an outcome is a returned `DecodeError`. -/
def Outcome.isErr : Outcome → Bool
  | .err _ => true
  | _ => false

/-- Every pointer level of the destination chain is set (non-nil), so the
dereference loop allocates nothing. -/
def chainSet : DTy → Val → Bool
  | .ptr t', .vptr (some w) => chainSet t' w
  | .ptr _, _ => false
  | _, _ => true

/-- Unset a variable: the environment with every binding of `k` removed. -/
def eraseKey (env : Env) (k : String) : Env :=
  env.filter (fun p => p.1 ≠ k)

/-- The string `s` is a base-10 representation (optional sign, one or more digits)
of the integer `i` — the plain mathematical meaning of the string,
independent of any bit width. -/
def reprDecInt (s : String) (i : Int) : Prop :=
  ∃ neg ds, splitSign s.toList = (neg, ds) ∧ ds ≠ [] ∧ allDigits ds = true ∧
    i = (if neg then -(digitsToNat ds : Int) else (digitsToNat ds : Int))

/-- The string `s` is an unsigned base-10 representation of the natural `n`. -/
def reprDecNat (s : String) (n : Nat) : Prop :=
  s.toList ≠ [] ∧ allDigits s.toList = true ∧ n = digitsToNat s.toList

/-- A concrete JSON oracle for closed evaluations: generic JSON decoding
always failing.  (The claims under study never depend on the oracle.) -/
def juFail : JsonOracle := fun s _ _ => .error s

/-! ## Theorems -/

/-- Claim C2 (counterexample): on the input `"###"` all three parsing
attempts fail, yet `parseTime` returns the RFC3339 (first-attempt) error,
not the structured-deserializer (last-attempt) error: the `err` names in
the second and third attempts are shadowed inside their `if` statements. -/
theorem C2_counterexample :
    timeParse "###" = .error (.parseErr "###") ∧
    (parseFloat64 "###").isOk = false ∧
    jsonUnmarshalTime "###" goTimeZero = .error (.unmarshalErr "###") ∧
    parseTime "###" = .error (.parseErr "###") ∧
    TimeErr.parseErr "###" ≠ TimeErr.unmarshalErr "###" :=
  ⟨rfl, rfl, rfl, rfl, by decide⟩

/-- Claim C2 (amended): when all three date/time parsing attempts fail,
`parseTime` returns the error produced by the *first* attempt — the
RFC3339-nanosecond parse error — because the errors of the second and
third attempts are scoped to their `if` statements. -/
theorem C2_all_fail_returns_first_error (s : String) (e : TimeErr) (e₂ : ConvErr)
    (e₃ : TimeErr) (h₁ : timeParse s = .error e) (h₂ : parseFloat64 s = .error e₂)
    (h₃ : jsonUnmarshalTime s goTimeZero = .error e₃) :
    parseTime s = .error e := by
  simp only [parseTime, h₁, h₂, h₃]

/-- Witness for C2: the amended theorem applied at `"###"`. -/
theorem C2_witness : parseTime "###" = .error (.parseErr "###") :=
  C2_all_fail_returns_first_error "###" (.parseErr "###")
    (.numError "ParseFloat" "###" false) (.unmarshalErr "###") rfl rfl rfl

/-- Claim C7: date/time conversion attempts RFC3339-nanosecond text,
then decimal Unix seconds (integer part whole seconds, fractional part
times 1e9 truncated to nanoseconds), then structured-text (JSON)
deserialization, stopping at the first success; `"2023-01-15T10:00:00Z"`
is parsed by the first format and `"1673776800"` by the Unix-seconds
fallback. -/
theorem C7_time_formats_in_order :
    (∀ s t, timeParse s = .ok t → parseTime s = .ok t) ∧
    (∀ s e f, timeParse s = .error e → parseFloat64 s = .ok f →
      parseTime s = .ok (unixFromFloat f)) ∧
    (∀ s e e₂ t, timeParse s = .error e → parseFloat64 s = .error e₂ →
      jsonUnmarshalTime s goTimeZero = .ok t → parseTime s = .ok t) ∧
    timeParse "2023-01-15T10:00:00Z" = .ok 1673776800000000000 ∧
    parseTime "2023-01-15T10:00:00Z" = .ok 1673776800000000000 ∧
    (timeParse "1673776800").isOk = false ∧
    parseFloat64 "1673776800" = .ok ⟨1673776800, 0⟩ ∧
    parseTime "1673776800" = .ok 1673776800000000000 ∧
    unixFromFloat ⟨167377680025, -2⟩ = 1673776800250000000 := by
  refine ⟨?_, ?_, ?_, ?_, ?_, ?_, ?_, ?_, ?_⟩
  · intro s t h; simp only [parseTime, h]
  · intro s e f h₁ h₂; simp only [parseTime, h₁, h₂]
  · intro s e e₂ t h₁ h₂ h₃; simp only [parseTime, h₁, h₂, h₃]
  · rfl
  · rfl
  · rfl
  · rfl
  · rfl
  · decide

/-- Witness for C7: the Unix-seconds-fallback conjunct applied at
`"1673776800"`. -/
theorem C7_witness : parseTime "1673776800" = .ok (unixFromFloat ⟨1673776800, 0⟩) :=
  C7_time_formats_in_order.2.1 "1673776800" (.parseErr "1673776800") ⟨1673776800, 0⟩
    rfl rfl

/-- Claim C8: channel- and function-kind fields are silently accepted as
a no-op (success, no mutation), while fields of a kind outside the
recognised set (here: interface, unsafe pointer) fail with an
unsupported-field-kind error naming the kind. -/
theorem C8_chan_func_noop_unknown_kind_error (ju : JsonOracle) (s : String) (w : Val)
    (_hne : s ≠ "") :
    decodeValue ju s .tchan (some w) = .ok (some w) ∧
    decodeValue ju s .tfunc (some w) = .ok (some w) ∧
    decodeValue ju s .tiface (some w) = .error (.unsupportedKind Ty.tiface.kindName) ∧
    decodeValue ju s .tUnsafePtr (some w) =
      .error (.unsupportedKind Ty.tUnsafePtr.kindName) :=
  ⟨rfl, rfl, rfl, rfl⟩

/-- Witness for C8 at a concrete non-empty value and field payload. -/
theorem C8_witness :
    decodeValue juFail "x" .tchan (some (.vother 3)) = .ok (some (.vother 3)) ∧
    decodeValue juFail "x" .tfunc (some (.vother 3)) = .ok (some (.vother 3)) ∧
    decodeValue juFail "x" .tiface (some (.vother 3)) =
      .error (.unsupportedKind Ty.tiface.kindName) ∧
    decodeValue juFail "x" .tUnsafePtr (some (.vother 3)) =
      .error (.unsupportedKind Ty.tUnsafePtr.kindName) :=
  C8_chan_func_noop_unknown_kind_error juFail "x" (.vother 3) (by decide)

/-- Claim C9: a nil typed pointer passed directly to `Decode` does not
produce the must-decode-to-pointer error (the argument *is* of pointer
kind); instead the dereference loop's nil check applies to the outermost
reference too, and the allocation write goes through the unaddressable
`reflect.ValueOf` handle — a panic, so the operation is not total on
this input. -/
theorem C9_nil_outer_pointer_panics (ju : JsonOracle) (env : Env) (t : DTy) :
    Decode ju env (.ptr t) (.vptr none) =
      (.panic "reflect: reflect.Value.Set using unaddressable value", .vptr none) ∧
    ∀ e : DecodeError, (Decode ju env (.ptr t) (.vptr none)).1 ≠ .err e :=
  ⟨rfl, fun _ h => Outcome.noConfusion h⟩

/-- Witness for C9: the panic outcome at a concrete destination type,
distinct from the must-decode-to-pointer error. -/
theorem C9_witness :
    Decode juFail [] (.ptr (.strukt [])) (.vptr none) =
      (.panic "reflect: reflect.Value.Set using unaddressable value", .vptr none) ∧
    (Decode juFail [] (.ptr (.strukt [])) (.vptr none)).1 ≠
      .err (newDecodeError "must decode to pointer" "" none) :=
  ⟨(C9_nil_outer_pointer_panics juFail [] (.strukt [])).1,
    (C9_nil_outer_pointer_panics juFail [] (.strukt [])).2
      (newDecodeError "must decode to pointer" "" none)⟩

/-! ### Lemmas about the dereference loop -/

theorem stripPtr_ne_ptr : ∀ t t' : DTy, stripPtr t ≠ DTy.ptr t' := by
  intro t
  induction t with
  | base b => intro t' h; exact DTy.noConfusion h
  | strukt fs => intro t' h; exact DTy.noConfusion h
  | ptr e ih => intro t' h; exact ih t' h

theorem walk_ok_shape : ∀ (t : DTy) (v : Val) (o : Bool) (it : DTy) (iv : Val) (n : Nat),
    walk t v o = .ok (it, iv, n) → it = stripPtr t ∧ n = ptrDepth t := by
  intro t
  induction t with
  | base b =>
    intro v o it iv n h
    injection h with h'
    simp only [Prod.mk.injEq] at h'
    exact ⟨h'.1.symm, h'.2.2.symm⟩
  | strukt fs =>
    intro v o it iv n h
    injection h with h'
    simp only [Prod.mk.injEq] at h'
    exact ⟨h'.1.symm, h'.2.2.symm⟩
  | ptr e ih =>
    intro v o it iv n h
    cases v with
    | vptr p =>
      cases p with
      | none =>
        cases o with
        | true => exact Except.noConfusion h
        | false =>
          have hred : walk (DTy.ptr e) (Val.vptr none) false =
              (walk e (zeroValD e) false).map (fun x => (x.1, x.2.1, x.2.2 + 1)) := rfl
          rw [hred] at h
          cases hw : walk e (zeroValD e) false with
          | error u => rw [hw] at h; exact Except.noConfusion h
          | ok trip =>
            obtain ⟨it', iv', n'⟩ := trip
            obtain ⟨h₁, h₂⟩ := ih (zeroValD e) false it' iv' n' hw
            rw [hw] at h
            injection h with h'
            simp only [Prod.mk.injEq] at h'
            refine ⟨h'.1.symm.trans h₁, ?_⟩
            rw [← h'.2.2, h₂]
            rfl
      | some w =>
        have hred : walk (DTy.ptr e) (Val.vptr (some w)) o =
            (walk e w false).map (fun x => (x.1, x.2.1, x.2.2 + 1)) := rfl
        rw [hred] at h
        cases hw : walk e w false with
        | error u => rw [hw] at h; exact Except.noConfusion h
        | ok trip =>
          obtain ⟨it', iv', n'⟩ := trip
          obtain ⟨h₁, h₂⟩ := ih w false it' iv' n' hw
          rw [hw] at h
          injection h with h'
          simp only [Prod.mk.injEq] at h'
          refine ⟨h'.1.symm.trans h₁, ?_⟩
          rw [← h'.2.2, h₂]
          rfl
    | vstr s => exact Except.noConfusion h
    | vbool b => exact Except.noConfusion h
    | vint i => exact Except.noConfusion h
    | vuint m => exact Except.noConfusion h
    | vfloat q => exact Except.noConfusion h
    | vcomplex a b => exact Except.noConfusion h
    | vtime tm => exact Except.noConfusion h
    | vstruct fs => exact Except.noConfusion h
    | vother m => exact Except.noConfusion h

theorem walk_of_chainSet : ∀ (t : DTy) (v : Val) (o : Bool), chainSet t v = true →
    ∃ iv, walk t v o = .ok (stripPtr t, iv, ptrDepth t) ∧ wrapN (ptrDepth t) iv = v := by
  intro t
  induction t with
  | base b => intro v o _; exact ⟨v, rfl, rfl⟩
  | strukt fs => intro v o _; exact ⟨v, rfl, rfl⟩
  | ptr e ih =>
    intro v o h
    cases v with
    | vptr p =>
      cases p with
      | none => exact Bool.noConfusion h
      | some w =>
        obtain ⟨iv, hw, hr⟩ := ih w false h
        refine ⟨iv, ?_, ?_⟩
        · have hred : walk (DTy.ptr e) (Val.vptr (some w)) o =
              (walk e w false).map (fun x => (x.1, x.2.1, x.2.2 + 1)) := rfl
          rw [hred, hw]
          rfl
        · show Val.vptr (some (wrapN (ptrDepth e) iv)) = Val.vptr (some w)
          rw [hr]
    | vstr s => exact Bool.noConfusion h
    | vbool b => exact Bool.noConfusion h
    | vint i => exact Bool.noConfusion h
    | vuint m => exact Bool.noConfusion h
    | vfloat q => exact Bool.noConfusion h
    | vcomplex a b => exact Bool.noConfusion h
    | vtime tm => exact Bool.noConfusion h
    | vstruct fs => exact Bool.noConfusion h
    | vother m => exact Bool.noConfusion h

theorem decodeFields_ok_getElem (ju : JsonOracle) (env : Env) :
    ∀ (fields : List Field) (fs : List Val), decodeFields ju env fields = .ok fs →
      ∀ i f, fields.get? i = some f →
        ∃ y, decodeField ju env f = .ok y ∧ fs.get? i = some y := by
  intro fields
  induction fields with
  | nil =>
    intro fs h i f hf
    exact absurd hf (by simp)
  | cons a as ih =>
    intro fs h i f hf
    cases hd : decodeField ju env a with
    | error e₀ =>
      rw [show decodeFields ju env (a :: as) =
        match decodeField ju env a with
        | .error e => .error e
        | .ok v => (decodeFields ju env as).map (fun vs => v :: vs) from rfl, hd] at h
      exact Except.noConfusion h
    | ok v =>
      rw [show decodeFields ju env (a :: as) =
        match decodeField ju env a with
        | .error e => .error e
        | .ok v => (decodeFields ju env as).map (fun vs => v :: vs) from rfl, hd] at h
      cases hr : decodeFields ju env as with
      | error e₀ => rw [hr] at h; exact Except.noConfusion h
      | ok vs =>
        rw [hr] at h
        injection h with h'
        cases i with
        | zero =>
          injection hf with hf'
          exact ⟨v, hf' ▸ hd, by rw [← h']; rfl⟩
        | succ j =>
          obtain ⟨y, hy, hys⟩ := ih vs hr j f hf
          exact ⟨y, hy, by rw [← h']; exact hys⟩

/-- An unexported field, or one whose candidate-key probe found no
non-empty value, decodes to the zero value of its type. -/
theorem decodeField_skip (ju : JsonOracle) (env : Env) (f : Field)
    (h : f.exported = false ∨ (probeTags env (getFieldTags f)).1 = "") :
    decodeField ju env f = .ok (zeroVal f.ty) := by
  cases hexp : f.exported with
  | false => simp [decodeField, hexp]
  | true =>
    have hp : (probeTags env (getFieldTags f)).1 = "" := by
      cases h with
      | inl h' => rw [hexp] at h'; exact Bool.noConfusion h'
      | inr h' => exact h'
    simp [decodeField, hexp, fieldOutcome, hp]

/-- Claim C10: on every successful `Decode`, the terminal record is
replaced wholesale by the freshly decoded instance — the final value is
fully determined by the environment and the field metadata (the pre-call
contents do not appear in it) — and every unexported field, as well as
every field whose key probe found no key or an empty value, ends at its
zero value. -/
theorem C10_success_replaces_record (ju : JsonOracle) (env : Env) (t : DTy) (v : Val)
    (hok : (Decode ju env t v).1 = .ok) :
    ∃ fs, decodeFields ju env (terminalFields t) = .ok fs ∧
      (Decode ju env t v).2 = wrapN (ptrDepth t) (.vstruct fs) ∧
      ∀ i f, (terminalFields t).get? i = some f →
        (f.exported = false ∨ (probeTags env (getFieldTags f)).1 = "") →
        fs.get? i = some (zeroVal f.ty) := by
  cases t with
  | base b => exact Outcome.noConfusion hok
  | strukt fss => exact Outcome.noConfusion hok
  | ptr e =>
    cases hw : walk (DTy.ptr e) v true with
    | error u =>
      have : (Decode ju env (DTy.ptr e) v).1 = .panic
          "reflect: reflect.Value.Set using unaddressable value" := by
        simp only [Decode, hw]
      rw [this] at hok
      exact Outcome.noConfusion hok
    | ok trip =>
      obtain ⟨it, iv, n⟩ := trip
      obtain ⟨hit, hn⟩ := walk_ok_shape (DTy.ptr e) v true it iv n hw
      cases hst : stripPtr (DTy.ptr e) with
      | ptr x => exact absurd hst (stripPtr_ne_ptr _ _)
      | base bt =>
        rw [hst] at hit
        rw [hit] at hw
        have : (Decode ju env (DTy.ptr e) v).1 = .err
            (newDecodeError ("cannot decode into value of type: " ++ bt.kindName) "" none) := by
          simp only [Decode, hw]
        rw [this] at hok
        exact Outcome.noConfusion hok
      | strukt fields =>
        rw [hst] at hit
        rw [hit] at hw
        have htf : terminalFields (DTy.ptr e) = fields := by
          unfold terminalFields
          rw [hst]
        cases hdf : decodeFields ju env fields with
        | error e₀ =>
          have : (Decode ju env (DTy.ptr e) v).1 = .err e₀ := by
            simp only [Decode, hw, hdf]
          rw [this] at hok
          exact Outcome.noConfusion hok
        | ok fs =>
          refine ⟨fs, by rw [htf]; exact hdf, ?_, ?_⟩
          · have : (Decode ju env (DTy.ptr e) v).2 = wrapN n (.vstruct fs) := by
              simp only [Decode, hw, hdf]
            rw [this, hn]
          · intro i f hf hskip
            rw [htf] at hf
            obtain ⟨y, hy, hys⟩ := decodeFields_ok_getElem ju env fields fs hdf i f hf
            rw [decodeField_skip ju env f hskip] at hy
            injection hy with hy'
            rw [← hy'] at hys
            exact hys

/-- Witness for C10: a two-field record behind one pointer — an
unexported field with a pre-call-relevant environment key and an
exported field whose key is absent — decodes to fresh zero values,
discarding the pre-call field contents. -/
theorem C10_witness :
    (Decode juFail [("U", "9")]
      (.ptr (.strukt [⟨"U", "", "", false, .tint .i64⟩, ⟨"W", "", "", true, .tstr⟩]))
      (.vptr (some (.vstruct [.vint 5, .vstr "old"])))).1 = .ok ∧
    ∃ fs, decodeFields juFail [("U", "9")]
        (terminalFields (.ptr (.strukt
          [⟨"U", "", "", false, .tint .i64⟩, ⟨"W", "", "", true, .tstr⟩]))) = .ok fs ∧
      (Decode juFail [("U", "9")]
        (.ptr (.strukt [⟨"U", "", "", false, .tint .i64⟩, ⟨"W", "", "", true, .tstr⟩]))
        (.vptr (some (.vstruct [.vint 5, .vstr "old"])))).2 =
        wrapN (ptrDepth (.ptr (.strukt
          [⟨"U", "", "", false, .tint .i64⟩, ⟨"W", "", "", true, .tstr⟩]))) (.vstruct fs) ∧
      ∀ i f, (terminalFields (.ptr (.strukt
          [⟨"U", "", "", false, .tint .i64⟩, ⟨"W", "", "", true, .tstr⟩]))).get? i = some f →
        (f.exported = false ∨ (probeTags [("U", "9")] (getFieldTags f)).1 = "") →
        fs.get? i = some (zeroVal f.ty) :=
  ⟨rfl,
    C10_success_replaces_record juFail [("U", "9")]
      (.ptr (.strukt [⟨"U", "", "", false, .tint .i64⟩, ⟨"W", "", "", true, .tstr⟩]))
      (.vptr (some (.vstruct [.vint 5, .vstr "old"]))) rfl⟩

/-- Claim C1 (amended): for every destination whose pointer chain is
fully set (no unset intermediate references) and every environment, if
`Decode` returns an error the caller-visible destination equals its
pre-call value: the fields are staged in a fresh record that is assigned
through the terminal handle only on full success. -/
theorem C1_error_preserves_destination (ju : JsonOracle) (env : Env) (t : DTy) (v : Val)
    (hchain : chainSet t v = true) (herr : ((Decode ju env t v).1.isErr) = true) :
    (Decode ju env t v).2 = v := by
  cases t with
  | base b => rfl
  | strukt fs => rfl
  | ptr e =>
    obtain ⟨iv, hw, hr⟩ := walk_of_chainSet (.ptr e) v true hchain
    cases hst : stripPtr (DTy.ptr e) with
    | ptr x => exact absurd hst (stripPtr_ne_ptr _ _)
    | base bt =>
      rw [hst] at hw
      simp only [Decode, hw]
      exact hr
    | strukt fields =>
      rw [hst] at hw
      cases hdf : decodeFields ju env fields with
      | error e₀ =>
        simp only [Decode, hw, hdf]
        exact hr
      | ok fs =>
        exfalso
        have hko : (Decode ju env (DTy.ptr e) v).1 = .ok := by
          simp only [Decode, hw, hdf]
        rw [hko] at herr
        exact absurd herr (by decide)

/-- Witness for C1 (amended): a fully-set single-pointer destination with
a failing boolean field: the error is returned and the caller's struct —
including its pre-call non-zero field value — is untouched. -/
theorem C1_witness :
    chainSet (.ptr (.strukt [⟨"T", "", "", true, .tbool⟩]))
      (.vptr (some (.vstruct [.vbool true]))) = true ∧
    ((Decode juFail [("T", "zzz")] (.ptr (.strukt [⟨"T", "", "", true, .tbool⟩]))
      (.vptr (some (.vstruct [.vbool true])))).1.isErr) = true ∧
    (Decode juFail [("T", "zzz")] (.ptr (.strukt [⟨"T", "", "", true, .tbool⟩]))
      (.vptr (some (.vstruct [.vbool true])))).2 =
      .vptr (some (.vstruct [.vbool true])) :=
  ⟨rfl, rfl,
    C1_error_preserves_destination juFail [("T", "zzz")]
      (.ptr (.strukt [⟨"T", "", "", true, .tbool⟩]))
      (.vptr (some (.vstruct [.vbool true]))) rfl rfl⟩

/-- Claim C1 (counterexample): with the destination reached through two
levels of indirection and the intermediate reference unset, a failing
field conversion returns an error, yet the caller-visible value has
changed — the dereference loop already allocated the intermediate
pointer and a zero record behind it before any field was decoded. -/
theorem C1_counterexample :
    ((Decode juFail [("T", "zzz")] (.ptr (.ptr (.strukt [⟨"T", "", "", true, .tbool⟩])))
      (.vptr (some (.vptr none)))).1.isErr) = true ∧
    (Decode juFail [("T", "zzz")] (.ptr (.ptr (.strukt [⟨"T", "", "", true, .tbool⟩])))
      (.vptr (some (.vptr none)))).2 ≠ .vptr (some (.vptr none)) := by
  refine ⟨rfl, ?_⟩
  intro h
  have h' : Val.vptr (some (.vptr (some (.vstruct [.vbool false])))) =
      Val.vptr (some (.vptr none)) := h
  simp at h'

/-! ### Lemmas about environment lookup and the key probe -/

theorem string_length_eq_zero_iff (s : String) : s.length = 0 ↔ s = "" := by
  cases s with
  | mk data =>
    constructor
    · intro h
      have hd : data = [] := List.length_eq_zero.mp h
      rw [hd]
    · intro h
      have hd : data = [] := congrArg String.data h
      show data.length = 0
      rw [hd]
      rfl

theorem lookupEnv_eraseKey_self (k : String) : ∀ env : Env,
    lookupEnv (eraseKey env k) k = none := by
  intro env
  induction env with
  | nil => rfl
  | cons p ps ih =>
    by_cases h : p.1 = k
    · simp only [eraseKey, List.filter_cons] at ih ⊢
      rw [if_neg (by simp [h])]
      exact ih
    · simp only [eraseKey, List.filter_cons] at ih ⊢
      rw [if_pos (by simp [h])]
      simp only [lookupEnv, List.find?_cons]
      rw [show (p.1 == k) = false from by simpa using h]
      exact ih

theorem lookupEnv_eraseKey_ne (k q : String) (hne : q ≠ k) : ∀ env : Env,
    lookupEnv (eraseKey env k) q = lookupEnv env q := by
  intro env
  induction env with
  | nil => rfl
  | cons p ps ih =>
    by_cases h : p.1 = k
    · simp only [eraseKey, List.filter_cons] at ih ⊢
      rw [if_neg (by simp [h])]
      rw [ih]
      simp only [lookupEnv, List.find?_cons]
      rw [show (p.1 == q) = false from by
        simp only [beq_eq_false_iff_ne, ne_eq, h]
        intro he
        exact hne he.symm]
    · simp only [eraseKey, List.filter_cons] at ih ⊢
      rw [if_pos (by simp [h])]
      by_cases hpq : p.1 = q
      · simp [lookupEnv, List.find?_cons, hpq]
      · simp only [lookupEnv, List.find?_cons]
        rw [show (p.1 == q) = false from by simpa using hpq]
        exact ih

theorem probeTags_cons_none (env : Env) (t r : String) (rs : List String)
    (h : lookupEnv env t = none) :
    probeTags env (t :: r :: rs) = probeTags env (r :: rs) := by
  simp [probeTags, h]

theorem probeTags_fst_empty (env : Env) : ∀ tags : List String,
    (∀ q ∈ tags, lookupEnv env q = none ∨ lookupEnv env q = some "") →
    (probeTags env tags).1 = "" := by
  intro tags
  induction tags with
  | nil => intro _; rfl
  | cons t rest ih =>
    intro hall
    cases hl : lookupEnv env t with
    | some v =>
      have hv := hall t (by simp)
      rw [hl] at hv
      cases hv with
      | inl h' => exact Option.noConfusion h'
      | inr h' =>
        injection h' with h''
        simp [probeTags, hl, h'']
    | none =>
      cases rest with
      | nil => simp [probeTags, hl]
      | cons r rs =>
        rw [probeTags_cons_none env t r rs hl]
        exact ih (fun q hq => hall q (by simp [hq]))

theorem fieldOutcome_congr (ju : JsonOracle) (env env' : Env) (tags tags' : List String)
    (ty : Ty) (h : probeTags env tags = probeTags env' tags') :
    fieldOutcome ju env tags ty = fieldOutcome ju env' tags' ty := by
  unfold fieldOutcome
  rw [h]

theorem fieldOutcome_empty (ju : JsonOracle) (env : Env) (tags : List String) (ty : Ty)
    (h : (probeTags env tags).1 = "") :
    fieldOutcome ju env tags ty = .ok (zeroVal ty) := by
  unfold fieldOutcome
  cases hp : probeTags env tags with
  | mk s tag =>
    rw [hp] at h
    have hs : s = "" := h
    rw [hs]
    rfl

/-- Claim C4 (counterexample): with candidate list `A,B`, environment
`A="" , B="5"` decodes the field to zero (the empty-but-set `A` stops
the probe), while the same environment with `A` unset decodes it to `5`
— a set-but-empty variable is *not* treated identically to an unset one
for every candidate key list. -/
theorem C4_counterexample :
    eraseKey [("A", ""), ("B", "5")] "A" = [("B", "5")] ∧
    Decode juFail [("A", ""), ("B", "5")]
      (.ptr (.strukt [⟨"N", "A,B", "", true, .tint .i64⟩]))
      (.vptr (some (.vstruct [.vint 9]))) =
      (.ok, .vptr (some (.vstruct [.vint 0]))) ∧
    Decode juFail [("B", "5")]
      (.ptr (.strukt [⟨"N", "A,B", "", true, .tint .i64⟩]))
      (.vptr (some (.vstruct [.vint 9]))) =
      (.ok, .vptr (some (.vstruct [.vint 5]))) ∧
    (Val.vptr (some (.vstruct [.vint 0])) : Val) ≠ .vptr (some (.vstruct [.vint 5])) := by
  refine ⟨rfl, rfl, rfl, ?_⟩
  intro h
  simp at h

/-- Claim C4 (amended): a set-but-empty environment variable leaves the
field at its zero value with no error, exactly like an unset one,
*provided* every later candidate key of the field resolves (in the
variable-less environment) to unset or empty; when a later candidate is
set non-empty, the empty-but-set variable masks it while an unset one
falls through to it. -/
theorem C4_empty_equals_unset (ju : JsonOracle) (ty : Ty) (env : Env) (k : String)
    (t1 t2 : List String) (hk : lookupEnv env k = some "") (hnot : k ∉ t1)
    (hafter : ∀ q ∈ t2, lookupEnv (eraseKey env k) q = none ∨
      lookupEnv (eraseKey env k) q = some "") :
    fieldOutcome ju env (t1 ++ k :: t2) ty =
      fieldOutcome ju (eraseKey env k) (t1 ++ k :: t2) ty := by
  revert hnot
  induction t1 with
  | nil =>
    intro _
    have hL : fieldOutcome ju env (k :: t2) ty = .ok (zeroVal ty) := by
      apply fieldOutcome_empty
      simp [probeTags, hk]
    have hR : fieldOutcome ju (eraseKey env k) (k :: t2) ty = .ok (zeroVal ty) := by
      apply fieldOutcome_empty
      have hk' : lookupEnv (eraseKey env k) k = none := lookupEnv_eraseKey_self k env
      cases t2 with
      | nil => simp [probeTags, hk']
      | cons r rs =>
        rw [probeTags_cons_none _ _ _ _ hk']
        exact probeTags_fst_empty _ _ (fun q hq => hafter q hq)
    rw [List.nil_append, hL, hR]
  | cons q t1' ih =>
    intro hnot
    have hq : q ≠ k := by
      intro hqe
      exact hnot (by simp [hqe])
    have hnot' : k ∉ t1' := fun hm => hnot (by simp [hm])
    have hsplit : ∃ r rs, t1' ++ k :: t2 = r :: rs := by
      cases t1' with
      | nil => exact ⟨k, t2, rfl⟩
      | cons a as => exact ⟨a, as ++ k :: t2, rfl⟩
    obtain ⟨r, rs, hs⟩ := hsplit
    cases hl : lookupEnv env q with
    | some v =>
      have hl' : lookupEnv (eraseKey env k) q = some v := by
        rw [lookupEnv_eraseKey_ne k q hq]
        exact hl
      apply fieldOutcome_congr
      rw [List.cons_append, hs]
      simp [probeTags, hl, hl']
    | none =>
      have hl' : lookupEnv (eraseKey env k) q = none := by
        rw [lookupEnv_eraseKey_ne k q hq]
        exact hl
      have e₁ : fieldOutcome ju env ((q :: t1') ++ k :: t2) ty =
          fieldOutcome ju env (t1' ++ k :: t2) ty := by
        apply fieldOutcome_congr
        rw [List.cons_append, hs]
        exact probeTags_cons_none env q r rs hl
      have e₂ : fieldOutcome ju (eraseKey env k) ((q :: t1') ++ k :: t2) ty =
          fieldOutcome ju (eraseKey env k) (t1' ++ k :: t2) ty := by
        apply fieldOutcome_congr
        rw [List.cons_append, hs]
        exact probeTags_cons_none (eraseKey env k) q r rs hl'
      rw [e₁, e₂]
      exact ih hnot'

/-- Witness for C4 (amended): candidate list `A,B` with `A=""` set and
`B` unset behaves exactly like the environment with `A` removed. -/
theorem C4_witness :
    lookupEnv [("A", ""), ("C", "7")] "A" = some "" ∧
    fieldOutcome juFail [("A", ""), ("C", "7")] ([] ++ "A" :: ["B"]) (.tint .i64) =
      fieldOutcome juFail (eraseKey [("A", ""), ("C", "7")] "A")
        ([] ++ "A" :: ["B"]) (.tint .i64) := by
  refine ⟨rfl, ?_⟩
  refine C4_empty_equals_unset juFail (.tint .i64) [("A", ""), ("C", "7")] "A"
    [] ["B"] rfl (by simp) ?_
  intro q hq
  have hqB : q = "B" := by simpa using hq
  rw [hqB]
  exact Or.inl rfl

theorem splitCommaAux_ne_nil : ∀ (cs acc : List Char), splitCommaAux acc cs ≠ [] := by
  intro cs
  induction cs with
  | nil => intro acc h; exact List.noConfusion h
  | cons c cs' ih =>
    intro acc
    by_cases h : c = ','
    · simp [splitCommaAux, h]
    · simp only [splitCommaAux, h, if_false]
      exact ih (c :: acc)

theorem splitComma_ne_nil (s : String) : splitComma s ≠ [] :=
  splitCommaAux_ne_nil s.toList []

/-- Claim C5: key-resolution priority — a non-empty (after filtering)
`mpe` decode-tag is used exclusively; otherwise a `json` tag contributes
its first comma-delimited segment when non-empty; otherwise the declared
field name is used; and concretely a field tagged `mpe:"A"` and
`json:"B"` with `A="1"` and `B="2"` both set resolves to `A`'s value. -/
theorem C5_tag_priority :
    (∀ f : Field, mpeKeys f ≠ [] → getFieldTags f = mpeKeys f) ∧
    (∀ f : Field, mpeKeys f = [] → jsonKeys f ≠ [] → getFieldTags f = jsonKeys f) ∧
    (∀ f : Field, f.tagJson ≠ "" → (splitComma f.tagJson).headD "" ≠ "" →
      jsonKeys f = [(splitComma f.tagJson).headD ""]) ∧
    (∀ f : Field, mpeKeys f = [] → jsonKeys f = [] → getFieldTags f = [f.name]) ∧
    Decode juFail [("A", "1"), ("B", "2"), ("N", "3")]
      (.ptr (.strukt [⟨"N", "A", "B", true, .tint .i64⟩]))
      (.vptr (some (.vstruct [.vint 0]))) =
      (.ok, .vptr (some (.vstruct [.vint 1]))) := by
  refine ⟨?_, ?_, ?_, ?_, rfl⟩
  · intro f h
    have hl : 0 < (mpeKeys f).length := List.length_pos.mpr h
    simp [getFieldTags, hl]
  · intro f h₁ h₂
    have hl : 0 < (jsonKeys f).length := List.length_pos.mpr h₂
    simp [getFieldTags, h₁, hl]
  · intro f hj hhead
    have hlen : 0 < f.tagJson.length := by
      rcases Nat.eq_zero_or_pos f.tagJson.length with h0 | hp
      · exact absurd ((string_length_eq_zero_iff _).mp h0) hj
      · exact hp
    cases hsp : splitComma f.tagJson with
    | nil => exact absurd hsp (splitComma_ne_nil _)
    | cons t₀ rest =>
      rw [hsp] at hhead
      have ht₀ : t₀ ≠ "" := by simpa using hhead
      have hlt : 0 < t₀.length := by
        rcases Nat.eq_zero_or_pos t₀.length with h0 | hp
        · exact absurd ((string_length_eq_zero_iff _).mp h0) ht₀
        · exact hp
      simp [jsonKeys, hlen, hsp, hlt]
  · intro f h₁ h₂
    simp [getFieldTags, h₁, h₂]

/-- Witness for C5: the three resolution tiers applied to concrete
fields. -/
theorem C5_witness :
    getFieldTags ⟨"N", "A,,B", "J", true, .tstr⟩ = mpeKeys ⟨"N", "A,,B", "J", true, .tstr⟩ ∧
    getFieldTags ⟨"N", "", "J,omitempty", true, .tstr⟩ =
      jsonKeys ⟨"N", "", "J,omitempty", true, .tstr⟩ ∧
    jsonKeys ⟨"N", "", "J,omitempty", true, .tstr⟩ =
      [(splitComma "J,omitempty").headD ""] ∧
    getFieldTags ⟨"N", "", "", true, .tstr⟩ = ["N"] :=
  ⟨C5_tag_priority.1 ⟨"N", "A,,B", "J", true, .tstr⟩ (by decide),
    C5_tag_priority.2.1 ⟨"N", "", "J,omitempty", true, .tstr⟩ (by decide) (by decide),
    C5_tag_priority.2.2.1 ⟨"N", "", "J,omitempty", true, .tstr⟩ (by decide) (by decide),
    C5_tag_priority.2.2.2.1 ⟨"N", "", "", true, .tstr⟩ (by decide) (by decide)⟩

theorem probeTags_found (env : Env) : ∀ (t1 : List String) (k : String) (t2 : List String)
    (val : String), (∀ q ∈ t1, lookupEnv env q = none) → lookupEnv env k = some val →
    probeTags env (t1 ++ k :: t2) = (val, k) := by
  intro t1
  induction t1 with
  | nil =>
    intro k t2 val _ hk
    simp [probeTags, hk]
  | cons q t1' ih =>
    intro k t2 val hall hk
    have hlq : lookupEnv env q = none := hall q (by simp)
    have hsplit : ∃ r rs, t1' ++ k :: t2 = r :: rs := by
      cases t1' with
      | nil => exact ⟨k, t2, rfl⟩
      | cons a as => exact ⟨a, as ++ k :: t2, rfl⟩
    obtain ⟨r, rs, hs⟩ := hsplit
    rw [List.cons_append, hs, probeTags_cons_none env q r rs hlq, ← hs]
    exact ih k t2 val (fun p hp => hall p (by simp [hp])) hk

/-- Claim C6: the candidate keys of a field are probed against the
environment in list order and the first key that *exists* wins; with
tags `FIRST,SECOND` and only `SECOND` set, the field decodes from
`SECOND`'s value. -/
theorem C6_first_existing_key_wins :
    (∀ (ju : JsonOracle) (env : Env) (ty : Ty) (t1 : List String) (k : String)
      (t2 : List String) (val : String),
      (∀ q ∈ t1, lookupEnv env q = none) → lookupEnv env k = some val →
      probeTags env (t1 ++ k :: t2) = (val, k) ∧
      (val ≠ "" → fieldOutcome ju env (t1 ++ k :: t2) ty = fieldConvert ju val k ty)) ∧
    getFieldTags ⟨"N", "FIRST,SECOND", "", true, .tint .i64⟩ = ["FIRST", "SECOND"] ∧
    Decode juFail [("SECOND", "7")]
      (.ptr (.strukt [⟨"N", "FIRST,SECOND", "", true, .tint .i64⟩]))
      (.vptr (some (.vstruct [.vint 0]))) =
      (.ok, .vptr (some (.vstruct [.vint 7]))) := by
  refine ⟨?_, rfl, rfl⟩
  intro ju env ty t1 k t2 val hall hk
  have hp := probeTags_found env t1 k t2 val hall hk
  refine ⟨hp, fun hval => ?_⟩
  unfold fieldOutcome
  rw [hp]
  have hlv : ¬ val.length = 0 := by
    intro h0
    exact hval ((string_length_eq_zero_iff val).mp h0)
  show (if val.length = 0 then Except.ok (zeroVal ty) else fieldConvert ju val k ty) =
    fieldConvert ju val k ty
  rw [if_neg hlv]

/-- Witness for C6: tags `FIRST,SECOND` with only `SECOND` set probe to
`SECOND` and decode from its value. -/
theorem C6_witness :
    probeTags [("SECOND", "7")] (["FIRST"] ++ "SECOND" :: []) = ("7", "SECOND") ∧
    fieldOutcome juFail [("SECOND", "7")] (["FIRST"] ++ "SECOND" :: []) (.tint .i64) =
      fieldConvert juFail "7" "SECOND" (.tint .i64) := by
  have h := C6_first_existing_key_wins.1 juFail [("SECOND", "7")] (.tint .i64)
    ["FIRST"] "SECOND" [] "7" (by intro q hq; simp at hq; rw [hq]; rfl) rfl
  exact ⟨h.1, h.2 (by decide)⟩

/-! ### Integer conversion: the bit-width question -/

theorem parseInt64_of_repr (s : String) (i : Int) (h : reprDecInt s i) :
    parseInt64 s = if i < -(2 ^ 63) ∨ (2 : Int) ^ 63 ≤ i then
      .error (.numError "ParseInt" s true) else .ok i := by
  obtain ⟨neg, ds, hsp, hne, hdig, hi⟩ := h
  unfold parseInt64
  rw [hsp]
  have h₁ : ds.isEmpty = false := by
    cases ds with
    | nil => exact absurd rfl hne
    | cons a as => rfl
  simp only [h₁, hdig, hi, Bool.false_eq_true, if_false, not_true_eq_false]

theorem parseUint64_of_repr (s : String) (n : Nat) (h : reprDecNat s n) :
    parseUint64 s = if 2 ^ 64 ≤ n then .error (.numError "ParseUint" s true)
      else .ok n := by
  obtain ⟨hne, hdig, hn⟩ := h
  unfold parseUint64
  have h₁ : s.toList.isEmpty = false := by
    cases hl : s.toList with
    | nil => exact absurd hl hne
    | cons a as => rfl
  simp only [h₁, hdig, hn, Bool.false_eq_true, if_false, not_true_eq_false]

/-- Claim C3 (counterexample): converting `"300"` into an 8-bit signed
field succeeds (no parse/range error) and silently stores the truncated
value 44 — the range check is against 64 bits, not the target's width. -/
theorem C3_counterexample :
    decodeValue juFail "300" (.tint .i8) (some (.vint 0)) = .ok (some (.vint 44)) ∧
    ∀ e : ConvErr, decodeValue juFail "300" (.tint .i8) (some (.vint 0)) ≠ .error e := by
  refine ⟨rfl, fun e h => ?_⟩
  rw [show decodeValue juFail "300" (.tint .i8) (some (.vint 0)) =
    .ok (some (.vint 44)) from rfl] at h
  exact Except.noConfusion h

/-- Claim C3 (amended): integer conversion range-checks against a fixed
64-bit width (the bit size always passed to the `strconv` parser), not
the target's width: any value representable in 64 bits converts without
error and is truncated (two's complement) to the target's width by the
reflective setter, while only values outside the 64-bit range produce a
range error. -/
theorem C3_range_check_is_64bit :
    (∀ (ju : JsonOracle) (s : String) (w : Val) (k : IntKind) (i : Int), reprDecInt s i →
      ((-(2 ^ 63) ≤ i ∧ i < 2 ^ 63) →
        decodeValue ju s (.tint k) (some w) = .ok (some (.vint (wrapSigned k.bits i)))) ∧
      ((i < -(2 ^ 63) ∨ (2 : Int) ^ 63 ≤ i) →
        decodeValue ju s (.tint k) (some w) = .error (.numError "ParseInt" s true))) ∧
    (∀ (ju : JsonOracle) (s : String) (w : Val) (k : UintKind) (n : Nat), reprDecNat s n →
      (n < 2 ^ 64 →
        decodeValue ju s (.tuint k) (some w) = .ok (some (.vuint (wrapUnsigned k.bits n)))) ∧
      (2 ^ 64 ≤ n →
        decodeValue ju s (.tuint k) (some w) = .error (.numError "ParseUint" s true))) := by
  constructor
  · intro ju s w k i hrep
    have hdv : decodeValue ju s (.tint k) (some w) =
        (parseInt64 s).map (fun j => some (.vint (wrapSigned k.bits j))) := rfl
    constructor
    · intro hin
      rw [hdv, parseInt64_of_repr s i hrep,
        if_neg (by push_neg; exact ⟨hin.1, hin.2⟩)]
      rfl
    · intro hout
      rw [hdv, parseInt64_of_repr s i hrep, if_pos hout]
      rfl
  · intro ju s w k n hrep
    have hdv : decodeValue ju s (.tuint k) (some w) =
        (parseUint64 s).map (fun m => some (.vuint (wrapUnsigned k.bits m))) := rfl
    constructor
    · intro hin
      rw [hdv, parseUint64_of_repr s n hrep, if_neg (not_le.mpr hin)]
      rfl
    · intro hout
      rw [hdv, parseUint64_of_repr s n hrep, if_pos hout]
      rfl

/-- Witness for C3 (amended): `"300"` into an 8-bit signed target
converts without error to `wrapSigned 8 300 = 44`. -/
theorem C3_witness :
    decodeValue juFail "300" (.tint .i8) (some (.vint 0)) =
      .ok (some (.vint (wrapSigned IntKind.i8.bits 300))) ∧
    wrapSigned IntKind.i8.bits 300 = 44 :=
  ⟨(C3_range_check_is_64bit.1 juFail "300" (.vint 0) .i8 300
      ⟨false, ['3', '0', '0'], rfl, by decide, rfl, rfl⟩).1 (by decide),
    by decide⟩

end Mapenv
